import Mathlib

/-!
Verification of the `taskflow` Go library (github.com/josuedeavila/taskflow).

We give a shallow embedding of the core components:

* `Task` (src/task.go): a memoized unit of work with a declared input type,
  a work function `fn`, an ordered dependency list, and a run-once guard
  (`sync.Once` modelled as a `done` flag; the embedding is sequential, so the
  guard is the `done` test).  `Run` walks the dependencies threading values,
  performs the runtime type assertion `currInput.(In)`, substitutes the zero
  value of `In` when the flowing value is `nil`, and caches `(result, err)`.
* `Retry` (src/retry.go): bounded retry with exponential backoff racing a
  cancellation context.
* `FanOutTask.ToTask` (src/fanout.go): generate sub-operations, run them all,
  keep the first-observed error, fan results in by index.
* `Runner.Run` (Runner source file): run every added task once with a `nil`
  input, collect errors in a queue, return the first drained error.

Dynamic Go values (`any`) are modelled by `GoVal`, Go types by `Ty`, and the
runtime type assertion by comparing `typeOf` with the declared type.
Scheduling nondeterminism (goroutine completion order) is modelled by an
explicit schedule: a permutation of the worker indices.  Logging is ignored:
per the library it is a side-effect-only collaborator that never affects
control flow.
-/

namespace Taskflow

/-- The small universe of Go dynamic types used as `In`/`Out` instantiations. -/
inductive Ty where
  | tInt
  | tStr
  | tBool
  deriving DecidableEq, Repr

/-- A Go `any` value: `nil` or a typed scalar. -/
inductive GoVal where
  | vnil
  | vint (n : Int)
  | vstr (s : String)
  | vbool (b : Bool)
  deriving DecidableEq, Repr

/-- Dynamic type of a value (`nil` has none). -/
def typeOf : GoVal → Option Ty
  | .vnil => none
  | .vint _ => some .tInt
  | .vstr _ => some .tStr
  | .vbool _ => some .tBool

/-- The Go zero value of a type (`var zeroIn In`). -/
def zeroOf : Ty → GoVal
  | .tInt => .vint 0
  | .tStr => .vstr ""
  | .tBool => .vbool false

/-- Errors: user errors returned by work functions, and the engine-raised
input type mismatch (`task: input type mismatch: expected %T, got %T`),
recording the expected (declared) type and the actual dynamic type. -/
inductive GoErr where
  | userErr (msg : String)
  | typeMismatch (expected : Ty) (actual : Option Ty)
  deriving DecidableEq, Repr

/-- Observable events of an execution: a `Run` entry on a task (with the
argument it received) and an invocation of a task's own work function `fn`
(with the value it received). -/
inductive Ev where
  | runCall (name : String) (input : GoVal)
  | fnCall (name : String) (input : GoVal)
  deriving DecidableEq, Repr

mutual
/-- Model of `Task[In, Out]` from src/task.go.  `inTy` is the declared input type `In`;
`fn` is the work function (as a dynamic-value function; the wrapper in `runTask`
performs the type assertion exactly as the source does); `depends`, `result`,
`err` are the corresponding fields; `done` models the `sync.Once` guard having
fired. -/
inductive Task where
  | mk (name : String) (inTy : Ty) (fn : GoVal → GoVal × Option GoErr)
      (depends : TaskList) (result : GoVal) (err : Option GoErr) (done : Bool)

/-- The `[]Executable` dependency list (dependencies are tasks). -/
inductive TaskList where
  | nil
  | cons (d : Task) (ds : TaskList)
end

def Task.name : Task → String
  | .mk n _ _ _ _ _ _ => n

def Task.inTy : Task → Ty
  | .mk _ ty _ _ _ _ _ => ty

def Task.fn : Task → (GoVal → GoVal × Option GoErr)
  | .mk _ _ f _ _ _ _ => f

def Task.depends : Task → TaskList
  | .mk _ _ _ ds _ _ _ => ds

def Task.result : Task → GoVal
  | .mk _ _ _ _ r _ _ => r

def Task.err : Task → Option GoErr
  | .mk _ _ _ _ _ e _ => e

def Task.done : Task → Bool
  | .mk _ _ _ _ _ _ b => b

/-- Constructor `NewTask`: fresh task, no dependencies, zero-valued cache, guard not
fired (`Result` starts as the zero value of `Out`, given here by `outZero`). -/
def newTask (name : String) (inTy : Ty) (outZero : GoVal)
    (fn : GoVal → GoVal × Option GoErr) : Task :=
  .mk name inTy fn .nil outZero none false

def TaskList.append : TaskList → TaskList → TaskList
  | .nil, ys => ys
  | .cons d ds, ys => .cons d (TaskList.append ds ys)

/-- Method `After`: append Executables to the dependency list, accumulating. -/
def Task.after : Task → TaskList → Task
  | .mk n ty f ds r e b, more => .mk n ty f (TaskList.append ds more) r e b

/-- Result of one `Task.Run` call: the returned `(output, err)` pair, the
task's updated state, and the trace of events the call produced. -/
structure RunRes where
  out : GoVal
  err : Option GoErr
  task : Task
  evs : List Ev

/-- Result of the dependency walk inside `Run`: the final threaded value or
the first error, the updated dependency list, the event trace, the direct
`dep.Run` calls made (dependency name, argument), and the outputs of the
successful dependency calls. -/
structure DepsRes where
  res : Except GoErr GoVal
  tasks : TaskList
  evs : List Ev
  calls : List (String × GoVal)
  outs : List GoVal

mutual
/-- Model of `Task.Run` from src/task.go, sequentially: if the once-guard has fired,
return the cached pair; otherwise walk dependencies threading the input, then
perform the `currInput.(In)` assertion (zero value when `nil`), run `fn`, and
cache the outcome.  The guard fires (`done := true`) no matter which branch
the body takes. -/
def runTask : Task → GoVal → RunRes
  | .mk name inTy fn deps result err done, input =>
    if done then
      ⟨result, err, .mk name inTy fn deps result err done, [.runCall name input]⟩
    else
      match runDeps deps input with
      | ⟨.error e, deps2, evs, _, _⟩ =>
        ⟨result, some e, .mk name inTy fn deps2 result (some e) true,
          .runCall name input :: evs⟩
      | ⟨.ok curr, deps2, evs, _, _⟩ =>
        if curr ≠ GoVal.vnil then
          if typeOf curr = some inTy then
            let p := fn curr
            ⟨p.1, p.2, .mk name inTy fn deps2 p.1 p.2 true,
              .runCall name input :: (evs ++ [.fnCall name curr])⟩
          else
            let e := GoErr.typeMismatch inTy (typeOf curr)
            ⟨result, some e, .mk name inTy fn deps2 result (some e) true,
              .runCall name input :: evs⟩
        else
          let p := fn (zeroOf inTy)
          ⟨p.1, p.2, .mk name inTy fn deps2 p.1 p.2 true,
            .runCall name input :: (evs ++ [.fnCall name (zeroOf inTy)])⟩

/-- The `for _, dep := range t.Depends` loop of `Run`: call each dependency
with the current value; stop at the first error; otherwise thread the output
to the next dependency. -/
def runDeps : TaskList → GoVal → DepsRes
  | .nil, curr => ⟨.ok curr, .nil, [], [], []⟩
  | .cons d rest, curr =>
    match runTask d curr with
    | ⟨out, derr, d2, evs⟩ =>
      match derr with
      | some e => ⟨.error e, .cons d2 rest, evs, [(d.name, curr)], []⟩
      | none =>
        match runDeps rest out with
        | ⟨res, rest2, evs2, calls2, outs2⟩ =>
          ⟨res, .cons d2 rest2, evs ++ evs2, (d.name, curr) :: calls2,
            out :: outs2⟩
end

mutual
/-- All task names occurring in a task's tree (its own and its dependencies'). -/
def taskNames : Task → List String
  | .mk n _ _ ds _ _ _ => n :: taskListNames ds

/-- All task names occurring in a dependency list's trees. -/
def taskListNames : TaskList → List String
  | .nil => []
  | .cons d ds => taskNames d ++ taskListNames ds
end

/-- The names of the direct entries of a dependency list (not recursive). -/
def topNames : TaskList → List String
  | .nil => []
  | .cons d ds => d.name :: topNames ds

/-- The task name an event belongs to. -/
def Ev.name : Ev → String
  | .runCall n _ => n
  | .fnCall n _ => n

/-- Is this event an invocation of the work function of the task named `nm`? -/
def isFnOf (nm : String) : Ev → Bool
  | .fnCall n _ => n = nm
  | .runCall _ _ => false

/-- Number of invocations of the work function of the task named `nm` in a
trace. -/
def countFn (nm : String) (evs : List Ev) : Nat :=
  (evs.filter (isFnOf nm)).length

/-! ## Retry (src/retry.go)

`Retry(ctx, fn, retries, backoff)` loops `for i := 0; i <= retries; i++`:
call `fn`; on success return `nil`; on failure race `ctx.Done()` against
`time.After(backoff)` — if the context resolves first return `ctx.Err()`,
otherwise double the backoff and continue; when the loop ends return the last
error.  The operation is modelled by `fn : Nat → Option GoErr` giving the
error (or success) of each attempt, and the context by
`ctxDone : Nat → Bool` saying whether the context resolves before the backoff
timer during the wait that follows attempt `i`.  Durations are naturals. -/

/-- Outcome of a `Retry` call: success, the operation's (last) error, or the
context's cancellation/timeout error. -/
inductive RetryOutcome where
  | success
  | opError (e : GoErr)
  | ctxError
  deriving DecidableEq, Repr

/-- Result of a `Retry` call: its outcome, how many times the operation was
invoked, and the list of backoff durations actually waited out, in order. -/
structure RetryRes where
  outcome : RetryOutcome
  calls : Nat
  waits : List Nat
  deriving DecidableEq, Repr

/-- The `Retry` loop: `i` is the attempt index, `backoff` the current backoff,
and the fuel argument counts the remaining loop iterations
(`retries + 1 - i`); the `0` case is the loop exit and is reached only after
a failing final attempt, whose error the caller of the recursion returns. -/
def retryAux (fn : Nat → Option GoErr) (ctxDone : Nat → Bool) :
    Nat → Nat → Nat → RetryRes
  | _, _, 0 => ⟨.success, 0, []⟩
  | i, backoff, rem + 1 =>
    match fn i with
    | none => ⟨.success, 1, []⟩
    | some e =>
      if ctxDone i then ⟨.ctxError, 1, []⟩
      else
        match rem with
        | 0 => ⟨.opError e, 1, [backoff]⟩
        | m + 1 =>
          let r := retryAux fn ctxDone (i + 1) (2 * backoff) (m + 1)
          ⟨r.outcome, r.calls + 1, backoff :: r.waits⟩

/-- Model of `Retry` from src/retry.go: attempts `0 .. retries`, initial backoff
`backoff`. -/
def Retry (fn : Nat → Option GoErr) (ctxDone : Nat → Bool)
    (retries backoff : Nat) : RetryRes :=
  retryAux fn ctxDone 0 backoff (retries + 1)

/-! ## FanOutTask (src/fanout.go)

`ToTask` wraps the fan-out into `NewTask(f.Name, closure)`; the interesting
behaviour is the closure, modelled here by `FanOutTask.toTaskFn`.  Goroutine
completion order is modelled by `sched`, the order in which workers take the
mutex after finishing; `firstErr` keeps the error of the first failing worker
in that order.  Every worker writes its result at its own index, so the
results slice passed to `FanIn` is in `Generate`'s output order. -/

/-- Model of `FanOutTask[In, Out]` from src/fanout.go. -/
structure FanOutTask (In Out : Type) where
  Generate : List In → Except GoErr (List (In → Out × Option GoErr))
  FanIn : List Out → Out × Option GoErr
  Name : String

/-- The `results` slice: each generated sub-operation invoked exactly once
with the zero value of `In`, its pair written at its own index. -/
def fanResults {In Out : Type} (fns : List (In → Out × Option GoErr))
    (zeroIn : In) : List (Out × Option GoErr) :=
  fns.map (fun g => g zeroIn)

/-- Helper `firstErr`: the error of the first failing worker in completion order
`sched` (each completing worker takes the lock; only the first failure is
kept). -/
def fanFirstErr {Out : Type} (results : List (Out × Option GoErr))
    (sched : List Nat) : Option GoErr :=
  (sched.filterMap (fun i => (results[i]?).bind Prod.snd)).head?

/-- The invocation trace of the fan-out: worker `i` is started once and
receives the zero value of `In`. -/
def fanCalls {In : Type} (m : Nat) (zeroIn : In) : List (Nat × In) :=
  (List.range m).map (fun i => (i, zeroIn))

/-- Body of the Task produced by `FanOutTask.ToTask`, given the zero values
of `In` and `Out` and a completion schedule.  Returns the `(output, err)`
pair and the trace of sub-operation invocations (worker index, argument). -/
def FanOutTask.toTaskFn {In Out : Type} (f : FanOutTask In Out)
    (zeroIn : In) (zeroOut : Out) (sched : List Nat) (input : List In) :
    (Out × Option GoErr) × List (Nat × In) :=
  match f.Generate input with
  | .error e => ((zeroOut, some e), [])
  | .ok fns =>
    match fanFirstErr (fanResults fns zeroIn) sched with
    | some e => ((zeroOut, some e), fanCalls fns.length zeroIn)
    | none =>
      (f.FanIn ((fanResults fns zeroIn).map Prod.fst),
        fanCalls fns.length zeroIn)

/-! ## Runner (Runner source file)

`Runner.Run` starts one goroutine per added task, each calling
`t.Run(ctx, nil)`; errors go into a channel buffered to `len(r.Tasks)`;
after the barrier the channel is drained and the first drained error (or
`nil`) is returned.  Channel order is arrival order, modelled by `sched`,
the completion order of the workers. -/

/-- One `t.Run(ctx, nil)` call per added task. -/
def runnerRuns (ts : List Task) : List RunRes :=
  ts.map (fun t => runTask t GoVal.vnil)

/-- The drained error queue of `Runner.Run`: the errors of the failing tasks
in completion (= arrival) order `sched`. -/
def runnerQueue (ts : List Task) (sched : List Nat) : List GoErr :=
  sched.filterMap (fun i => ((runnerRuns ts)[i]?).bind RunRes.err)

/-- Model of `Runner.Run`: the first error drained from the queue, if any. -/
def runnerRun (ts : List Task) (sched : List Nat) : Option GoErr :=
  (runnerQueue ts sched).head?

/-! ## Concrete tasks and helpers used in examples and witnesses -/

/-- A concrete dependency used by witnesses: returns 7. -/
def memoDep : Task :=
  newTask "d" Ty.tInt (GoVal.vint 0) (fun _ => (GoVal.vint 7, none))

/-- A concrete task with one dependency used by witnesses: the identity on
ints after `memoDep`. -/
def memoTask : Task :=
  Task.mk "t" Ty.tInt (fun x => (x, none))
    (TaskList.cons memoDep TaskList.nil) (GoVal.vint 0) none false

/-- The last element of a list, or `d` when it is empty (definitionally
unfolding on `cons`). -/
def lastD : List GoVal → GoVal → GoVal
  | [], d => d
  | x :: xs, _ => lastD xs x

/-- A task used in counterexamples: no dependencies, declared input type
int, `fn` the identity. -/
def c2Task : Task := newTask "c2" Ty.tInt (GoVal.vint 0) (fun x => (x, none))

/-- Dependency adding 1 to an int. -/
def thrD1 : Task :=
  newTask "d1" Ty.tInt (GoVal.vint 0)
    (fun x => match x with
      | .vint k => (GoVal.vint (k + 1), none)
      | _ => (GoVal.vnil, none))

/-- Dependency doubling an int. -/
def thrD2 : Task :=
  newTask "d2" Ty.tInt (GoVal.vint 0)
    (fun x => match x with
      | .vint k => (GoVal.vint (2 * k), none)
      | _ => (GoVal.vnil, none))

/-- The dependency list `[d1, d2]`. -/
def thrDeps : TaskList := .cons thrD1 (.cons thrD2 .nil)

/-- Work function adding 100 to an int. -/
def thrFn : GoVal → GoVal × Option GoErr :=
  fun x => match x with
    | .vint k => (GoVal.vint (k + 100), none)
    | _ => (GoVal.vnil, none)

/-- A dependency that always fails with the error `"boom"`. -/
def badDep : Task :=
  newTask "dbad" Ty.tInt (GoVal.vint 0)
    (fun _ => (GoVal.vnil, some (GoErr.userErr "boom")))

/-- A dependency whose `fn` would be observable: returns 9. -/
def postDep : Task :=
  newTask "dpost" Ty.tInt (GoVal.vint 0) (fun _ => (GoVal.vint 9, none))

/-- A fan-out over ints: three sub-operations returning 1, 2, 3 in
generation order; fan-in sums positionally weighted results. -/
def fanDemo : FanOutTask Int Int where
  Generate := fun _ =>
    .ok [fun _ => (1, none), fun _ => (2, none), fun _ => (3, none)]
  FanIn := fun results => (results.foldl (fun a b => 10 * a + b) 0, none)
  Name := "fan"

/-! ## Basic facts about `Task.Run` -/

/-- A task whose once-guard has fired returns the cached pair, mutates
nothing, and produces no dependency or `fn` events. -/
theorem runTask_of_done (t : Task) (v : GoVal) (h : t.done = true) :
    runTask t v = ⟨t.result, t.err, t, [.runCall t.name v]⟩ := by
  cases t with
  | mk n ty f ds r e b =>
    cases b with
    | true => rfl
    | false => simp [Task.done] at h

/-- Any `Run` call leaves the once-guard fired. -/
theorem runTask_task_done (t : Task) (v : GoVal) :
    (runTask t v).task.done = true := by
  cases t with
  | mk n ty f ds r e b =>
    cases b with
    | true => rfl
    | false =>
      simp only [runTask]
      rcases runDeps ds v with ⟨res, d2, evs, cs, os⟩
      rcases res with e2 | curr
      · rfl
      · by_cases hnil : curr ≠ GoVal.vnil
        · by_cases hty : typeOf curr = some ty
          · simp [hnil, hty, Task.done]
          · simp [hnil, hty, Task.done]
        · simp [hnil, Task.done]

/-- A `Run` call does not change the task's name. -/
theorem runTask_task_name (t : Task) (v : GoVal) :
    (runTask t v).task.name = t.name := by
  cases t with
  | mk n ty f ds r e b =>
    cases b with
    | true => rfl
    | false =>
      simp only [runTask]
      rcases runDeps ds v with ⟨res, d2, evs, cs, os⟩
      rcases res with e2 | curr
      · rfl
      · by_cases hnil : curr ≠ GoVal.vnil
        · by_cases hty : typeOf curr = some ty
          · simp [hnil, hty, Task.name]
          · simp [hnil, hty, Task.name]
        · simp [hnil, Task.name]

/-- What `Run` returns is what it cached. -/
theorem runTask_out_err_cached (t : Task) (v : GoVal) :
    (runTask t v).out = (runTask t v).task.result ∧
    (runTask t v).err = (runTask t v).task.err := by
  cases t with
  | mk n ty f ds r e b =>
    cases b with
    | true => exact ⟨rfl, rfl⟩
    | false =>
      simp only [runTask]
      rcases runDeps ds v with ⟨res, d2, evs, cs, os⟩
      rcases res with e2 | curr
      · exact ⟨rfl, rfl⟩
      · by_cases hnil : curr ≠ GoVal.vnil
        · by_cases hty : typeOf curr = some ty
          · simp [hnil, hty, Task.result, Task.err]
          · simp [hnil, hty, Task.result, Task.err]
        · simp [hnil, Task.result, Task.err]

/-- Every `Run` call is recorded first in its own trace, with the argument it
received. -/
theorem runTask_evs_head (t : Task) (v : GoVal) :
    (runTask t v).evs.head? = some (.runCall t.name v) := by
  cases t with
  | mk n ty f ds r e b =>
    cases b with
    | true => rfl
    | false =>
      simp only [runTask]
      rcases runDeps ds v with ⟨res, d2, evs, cs, os⟩
      rcases res with e2 | curr
      · rfl
      · by_cases hnil : curr ≠ GoVal.vnil
        · by_cases hty : typeOf curr = some ty
          · simp [hnil, hty, Task.name]
          · simp [hnil, hty, Task.name]
        · simp [hnil, Task.name]

/-- Equation for `Run` on a fresh task whose dependency walk fails: cache and return the
dependency's error, keep the zero result, fire the guard. -/
theorem runTask_fresh_depErr (n : String) (ty : Ty)
    (f : GoVal → GoVal × Option GoErr) (ds : TaskList) (r : GoVal)
    (v : GoVal) (e : GoErr) (deps2 : TaskList) (evs : List Ev)
    (cs : List (String × GoVal)) (os : List GoVal)
    (e0 : Option GoErr)
    (hD : runDeps ds v = ⟨.error e, deps2, evs, cs, os⟩) :
    runTask (.mk n ty f ds r e0 false) v =
      ⟨r, some e, .mk n ty f deps2 r (some e) true, .runCall n v :: evs⟩ := by
  simp [runTask, hD]

/-- Equation for `Run` on a fresh task whose dependency walk yields a non-nil, well-typed
value: run `fn` on it and cache its outcome. -/
theorem runTask_fresh_typed (n : String) (ty : Ty)
    (f : GoVal → GoVal × Option GoErr) (ds : TaskList) (r : GoVal)
    (v curr : GoVal) (deps2 : TaskList) (evs : List Ev)
    (cs : List (String × GoVal)) (os : List GoVal)
    (e0 : Option GoErr)
    (hD : runDeps ds v = ⟨.ok curr, deps2, evs, cs, os⟩)
    (hnil : curr ≠ GoVal.vnil) (hty : typeOf curr = some ty) :
    runTask (.mk n ty f ds r e0 false) v =
      ⟨(f curr).1, (f curr).2,
        .mk n ty f deps2 (f curr).1 (f curr).2 true,
        .runCall n v :: (evs ++ [.fnCall n curr])⟩ := by
  simp [runTask, hD, hnil, hty]

/-- Equation for `Run` on a fresh task whose dependency walk yields a non-nil value of the
wrong type: cache and return a `TypeMismatch` error naming the declared and
the actual type, without touching `fn`. -/
theorem runTask_fresh_mismatch (n : String) (ty : Ty)
    (f : GoVal → GoVal × Option GoErr) (ds : TaskList) (r : GoVal)
    (v curr : GoVal) (deps2 : TaskList) (evs : List Ev)
    (cs : List (String × GoVal)) (os : List GoVal)
    (e0 : Option GoErr)
    (hD : runDeps ds v = ⟨.ok curr, deps2, evs, cs, os⟩)
    (hnil : curr ≠ GoVal.vnil) (hty : ¬ typeOf curr = some ty) :
    runTask (.mk n ty f ds r e0 false) v =
      ⟨r, some (GoErr.typeMismatch ty (typeOf curr)),
        .mk n ty f deps2 r (some (GoErr.typeMismatch ty (typeOf curr))) true,
        .runCall n v :: evs⟩ := by
  simp [runTask, hD, hnil, hty]

/-- Equation for `Run` on a fresh task whose dependency walk yields `nil`: substitute the
zero value of the declared input type, run `fn` on it, cache its outcome. -/
theorem runTask_fresh_nil (n : String) (ty : Ty)
    (f : GoVal → GoVal × Option GoErr) (ds : TaskList) (r : GoVal)
    (v : GoVal) (deps2 : TaskList) (evs : List Ev)
    (cs : List (String × GoVal)) (os : List GoVal)
    (e0 : Option GoErr)
    (hD : runDeps ds v = ⟨.ok GoVal.vnil, deps2, evs, cs, os⟩) :
    runTask (.mk n ty f ds r e0 false) v =
      ⟨(f (zeroOf ty)).1, (f (zeroOf ty)).2,
        .mk n ty f deps2 (f (zeroOf ty)).1 (f (zeroOf ty)).2 true,
        .runCall n v :: (evs ++ [.fnCall n (zeroOf ty)])⟩ := by
  simp [runTask, hD]

/-- The step equation for a dependency walk over a non-empty list. -/
theorem runDeps_cons (d : Task) (rest : TaskList) (v : GoVal) :
    runDeps (.cons d rest) v =
      match runTask d v with
      | ⟨out, derr, d2, evs⟩ =>
        match derr with
        | some e => ⟨.error e, .cons d2 rest, evs, [(d.name, v)], []⟩
        | none =>
          match runDeps rest out with
          | ⟨res, rest2, evs2, calls2, outs2⟩ =>
            ⟨res, .cons d2 rest2, evs ++ evs2, (d.name, v) :: calls2,
              out :: outs2⟩ := by
  simp [runDeps]

mutual
/-- Every event of a `Run` call names a task occurring in the task's tree. -/
theorem runTask_evs_names : ∀ (t : Task) (v : GoVal),
    ∀ e ∈ (runTask t v).evs, e.name ∈ taskNames t
  | .mk n ty f ds r e0 b, v => by
    intro e he
    cases b with
    | true =>
      simp [runTask] at he
      subst he
      simp [taskNames, Ev.name]
    | false =>
      rcases hD : runDeps ds v with ⟨res, d2, evs, cs, os⟩
      have hsub : ∀ e ∈ evs, Ev.name e ∈ taskListNames ds := by
        intro e he2
        have := runDeps_evs_names ds v e
        rw [hD] at this
        exact this he2
      rcases res with e2 | curr
      · rw [runTask_fresh_depErr n ty f ds r v e2 d2 evs cs os e0 hD] at he
        rcases List.mem_cons.mp he with he | he
        · subst he; simp [taskNames, Ev.name]
        · exact List.mem_cons_of_mem _ (hsub e he)
      · by_cases hnil : curr = GoVal.vnil
        · subst hnil
          rw [runTask_fresh_nil n ty f ds r v d2 evs cs os e0 hD] at he
          rcases List.mem_cons.mp he with he | he
          · subst he; simp [taskNames, Ev.name]
          · rcases List.mem_append.mp he with he | he
            · exact List.mem_cons_of_mem _ (hsub e he)
            · simp only [List.mem_singleton] at he
              subst he; simp [taskNames, Ev.name]
        · by_cases hty : typeOf curr = some ty
          · rw [runTask_fresh_typed n ty f ds r v curr d2 evs cs os e0 hD hnil hty] at he
            rcases List.mem_cons.mp he with he | he
            · subst he; simp [taskNames, Ev.name]
            · rcases List.mem_append.mp he with he | he
              · exact List.mem_cons_of_mem _ (hsub e he)
              · simp only [List.mem_singleton] at he
                subst he; simp [taskNames, Ev.name]
          · rw [runTask_fresh_mismatch n ty f ds r v curr d2 evs cs os e0 hD hnil hty] at he
            rcases List.mem_cons.mp he with he | he
            · subst he; simp [taskNames, Ev.name]
            · exact List.mem_cons_of_mem _ (hsub e he)

/-- Every event of a dependency walk names a task occurring in the list's
trees. -/
theorem runDeps_evs_names : ∀ (ds : TaskList) (v : GoVal),
    ∀ e ∈ (runDeps ds v).evs, e.name ∈ taskListNames ds
  | .nil, v => by intro e he; simp [runDeps] at he
  | .cons d rest, v => by
    intro e he
    rw [runDeps_cons] at he
    rcases hR : runTask d v with ⟨out, derr, d2, evs⟩
    rw [hR] at he
    have hd : ∀ e ∈ evs, Ev.name e ∈ taskNames d := by
      intro e he2
      have := runTask_evs_names d v e
      rw [hR] at this
      exact this he2
    rcases derr with _ | e2
    · simp only at he
      rcases hQ : runDeps rest out with ⟨res2, rest2, evs2, cs2, os2⟩
      rw [hQ] at he
      simp only at he
      rcases List.mem_append.mp he with he | he
      · exact List.mem_append.mpr (Or.inl (hd e he))
      · have := runDeps_evs_names rest out e
        rw [hQ] at this
        exact List.mem_append.mpr (Or.inr (this he))
    · simp only at he
      exact List.mem_append.mpr (Or.inl (hd e he))
end

theorem countFn_cons_runCall (nm a : String) (b : GoVal) (l : List Ev) :
    countFn nm (.runCall a b :: l) = countFn nm l := by
  simp [countFn, List.filter_cons, isFnOf]

theorem countFn_append (nm : String) (l1 l2 : List Ev) :
    countFn nm (l1 ++ l2) = countFn nm l1 + countFn nm l2 := by
  simp [countFn, List.filter_append]

theorem countFn_fnCall_self (nm : String) (x : GoVal) :
    countFn nm [.fnCall nm x] = 1 := by
  simp [countFn, List.filter_cons, isFnOf]

/-- A trace whose event names all avoid `nm` invokes `nm`'s work function
zero times. -/
theorem countFn_eq_zero (nm : String) (evs : List Ev) (names : List String)
    (hsub : ∀ e ∈ evs, e.name ∈ names) (hnm : nm ∉ names) :
    countFn nm evs = 0 := by
  unfold countFn
  rw [List.length_eq_zero, List.filter_eq_nil_iff]
  intro e he
  cases e with
  | runCall a b => simp [isFnOf]
  | fnCall a b =>
    simp only [isFnOf, decide_eq_true_eq]
    intro hn
    subst hn
    exact hnm (hsub _ he)

/-- C1: for every Task, the work function executes at most once over the
whole life of the instance, and once the first `Run` has completed every
later `Run` call, whatever its argument, returns the same cached
`(result, err)` pair, leaves the task's state untouched, and produces no
dependency-walk and no `fn` event.
(The hypothesis says the task's name does not collide with a name in its
dependency trees, so that counting its `fn` invocations by name is
unambiguous.) -/
theorem task_run_memoized (t : Task) (v w : GoVal)
    (hname : t.name ∉ taskListNames t.depends) :
    runTask (runTask t v).task w =
      ⟨(runTask t v).out, (runTask t v).err, (runTask t v).task,
        [.runCall t.name w]⟩ ∧
    countFn t.name (runTask t v).evs ≤ 1 := by
  constructor
  · have hd := runTask_task_done t v
    have hcache := runTask_out_err_cached t v
    have hn := runTask_task_name t v
    rw [runTask_of_done _ w hd, hn, ← hcache.1, ← hcache.2]
  · cases t with
    | mk n ty f ds r e0 b =>
      simp only [Task.name, Task.depends] at hname ⊢
      cases b with
      | true =>
        rw [runTask_of_done (Task.mk n ty f ds r e0 true) v rfl]
        simp [countFn, List.filter_cons, isFnOf]
      | false =>
        rcases hD : runDeps ds v with ⟨res, d2, evs, cs, os⟩
        have hdeps0 : countFn n evs = 0 := by
          refine countFn_eq_zero n evs (taskListNames ds) ?_ hname
          intro e he
          have := runDeps_evs_names ds v e
          rw [hD] at this
          exact this he
        rcases res with e2 | curr
        · rw [runTask_fresh_depErr n ty f ds r v e2 d2 evs cs os e0 hD]
          simp [countFn_cons_runCall, hdeps0]
        · by_cases hnil : curr = GoVal.vnil
          · subst hnil
            rw [runTask_fresh_nil n ty f ds r v d2 evs cs os e0 hD]
            simp [countFn_cons_runCall, countFn_append, hdeps0,
              countFn_fnCall_self]
          · by_cases hty : typeOf curr = some ty
            · rw [runTask_fresh_typed n ty f ds r v curr d2 evs cs os e0 hD
                hnil hty]
              simp [countFn_cons_runCall, countFn_append, hdeps0,
                countFn_fnCall_self]
            · rw [runTask_fresh_mismatch n ty f ds r v curr d2 evs cs os e0 hD
                hnil hty]
              simp [countFn_cons_runCall, hdeps0]

/-- Witness for C1 at a concrete task: run it, then run it again with a
different argument; the second run returns the first run's cached pair,
mutates nothing, and the first run invoked `fn` at most once. -/
theorem task_run_memoized_witness :
    memoTask.name ∉ taskListNames memoTask.depends ∧
    runTask (runTask memoTask (GoVal.vint 1)).task (GoVal.vint 2) =
      ⟨(runTask memoTask (GoVal.vint 1)).out,
        (runTask memoTask (GoVal.vint 1)).err,
        (runTask memoTask (GoVal.vint 1)).task,
        [.runCall memoTask.name (GoVal.vint 2)]⟩ ∧
    countFn memoTask.name (runTask memoTask (GoVal.vint 1)).evs ≤ 1 := by
  refine ⟨by decide, ?_, ?_⟩
  · exact (task_run_memoized memoTask (GoVal.vint 1) (GoVal.vint 2)
      (by decide)).1
  · exact (task_run_memoized memoTask (GoVal.vint 1) (GoVal.vint 2)
      (by decide)).2

/-- A successful dependency walk calls the first dependency with the caller
value and every later one with its predecessor's output; the last output is
the value handed to the type-assertion stage. -/
theorem runDeps_ok_threading : ∀ (ds : TaskList) (v u : GoVal),
    (runDeps ds v).res = .ok u →
    (runDeps ds v).calls.map Prod.snd = (v :: (runDeps ds v).outs).dropLast ∧
    (runDeps ds v).calls.map Prod.fst = topNames ds ∧
    lastD (runDeps ds v).outs v = u
  | .nil, v, u => by
    intro h
    simp only [runDeps] at h ⊢
    cases h
    simp [topNames, lastD]
  | .cons d rest, v, u => by
    intro h
    rw [runDeps_cons] at h ⊢
    rcases hR : runTask d v with ⟨out, derr, d2, evs⟩
    rw [hR] at h
    rcases derr with _ | e2
    · simp only at h ⊢
      rcases hQ : runDeps rest out with ⟨res2, rest2, evs2, cs2, os2⟩
      rw [hQ] at h
      simp only at h ⊢
      have ih := runDeps_ok_threading rest out u
      rw [hQ] at ih
      simp only at ih
      obtain ⟨ih1, ih2, ih3⟩ := ih h
      refine ⟨?_, ?_, ?_⟩
      · simp [ih1, List.dropLast_cons₂]
      · simp [ih2, topNames]
      · exact ih3
    · simp only at h
      simp at h

/-- C2 counterexample: the claim says that with zero dependencies `fn` is
invoked with the caller-supplied input unchanged, for every caller input.
Feeding the int-typed `c2Task` the string `"x"` refutes this: the first
execution produces no `fn` invocation at all — it fails with a
`TypeMismatch` instead (the assertion stage sits between the walk and `fn`
even when there are no dependencies). -/
theorem task_run_threading_cex :
    c2Task.depends = TaskList.nil ∧
    (runTask c2Task (GoVal.vstr "x")).evs =
      [.runCall "c2" (GoVal.vstr "x")] ∧
    (runTask c2Task (GoVal.vstr "x")).err =
      some (GoErr.typeMismatch Ty.tInt (some Ty.tStr)) :=
  ⟨rfl, by decide, by decide⟩

/-- C2 (amended): for a Task with dependency list `[D1, ..., Dn]` and caller
input `v`, the first execution calls `D1.Run` with `v` and each later
`Di.Run` with the output of its predecessor; writing `u` for the last
dependency's output (`u = v` when `n = 0`), if `u` is non-nil and satisfies
`fn`'s declared input type then `fn` is invoked with `u` and its pair is
returned.  (The nil and ill-typed flows are the subject of C10 and C4.) -/
theorem task_run_threading (n : String) (ty : Ty)
    (f : GoVal → GoVal × Option GoErr) (ds : TaskList) (r0 : GoVal)
    (v u : GoVal)
    (hok : (runDeps ds v).res = .ok u)
    (hnil : u ≠ GoVal.vnil) (hty : typeOf u = some ty) :
    (runDeps ds v).calls.map Prod.snd = (v :: (runDeps ds v).outs).dropLast ∧
    (runDeps ds v).calls.map Prod.fst = topNames ds ∧
    lastD (runDeps ds v).outs v = u ∧
    (runTask (.mk n ty f ds r0 none false) v).evs =
      .runCall n v :: ((runDeps ds v).evs ++ [.fnCall n u]) ∧
    (runTask (.mk n ty f ds r0 none false) v).out = (f u).1 ∧
    (runTask (.mk n ty f ds r0 none false) v).err = (f u).2 := by
  obtain ⟨h1, h2, h3⟩ := runDeps_ok_threading ds v u hok
  rcases hD : runDeps ds v with ⟨res, d2, evs, cs, os⟩
  rw [hD] at hok h1 h2 h3
  simp only at hok h1 h2 h3 ⊢
  subst hok
  rw [runTask_fresh_typed n ty f ds r0 v u d2 evs cs os none hD hnil hty]
  exact ⟨h1, h2, h3, rfl, rfl, rfl⟩

/-- Witness for the amended C2 on `[d1, d2]` with input 5: `d1` is called
with 5, `d2` with 6, and `fn` with 12, returning 112. -/
theorem task_run_threading_witness :
    (runDeps thrDeps (GoVal.vint 5)).calls =
      [("d1", GoVal.vint 5), ("d2", GoVal.vint 6)] ∧
    (runTask (.mk "t" Ty.tInt thrFn thrDeps (GoVal.vint 0) none false)
      (GoVal.vint 5)).out = GoVal.vint 112 := by
  have h := task_run_threading "t" Ty.tInt thrFn thrDeps (GoVal.vint 0)
    (GoVal.vint 5) (GoVal.vint 12) rfl (by decide) (by decide)
  refine ⟨by decide, ?_⟩
  rw [h.2.2.2.2.1]
  decide

/-- Splitting a dependency walk at a list append: the suffix only runs when
the prefix succeeds, on the prefix's final value. -/
theorem runDeps_append_spec : ∀ (pre rest : TaskList) (v : GoVal),
    runDeps (TaskList.append pre rest) v =
      match runDeps pre v with
      | ⟨.error e, pre2, evs, cs, os⟩ =>
        ⟨.error e, TaskList.append pre2 rest, evs, cs, os⟩
      | ⟨.ok u, pre2, evs, cs, os⟩ =>
        match runDeps rest u with
        | ⟨res2, rest2, evs2, cs2, os2⟩ =>
          ⟨res2, TaskList.append pre2 rest2, evs ++ evs2, cs ++ cs2,
            os ++ os2⟩
  | .nil, rest, v => by
    simp only [TaskList.append, runDeps]
    rcases runDeps rest v with ⟨res2, rest2, evs2, cs2, os2⟩
    rfl
  | .cons d pre, rest, v => by
    simp only [TaskList.append]
    rw [runDeps_cons, runDeps_cons]
    rcases hR : runTask d v with ⟨out, derr, d2, evs⟩
    rcases derr with _ | e2
    · simp only
      rw [runDeps_append_spec pre rest out]
      rcases hP : runDeps pre out with ⟨resP, preP, evsP, csP, osP⟩
      rcases resP with eP | uP
      · simp [TaskList.append]
      · rcases hQ : runDeps rest uP with ⟨resQ, restQ, evsQ, csQ, osQ⟩
        simp [TaskList.append]
    · simp [TaskList.append]

/-- C3: if a dependency in the walk fails, the walk stops there: the
dependencies after it are not invoked (their state is untouched and the
trace contains only the successful prefix's and the failing dependency's
events), the task's own `fn` is not invoked, and the failing dependency's
error, unchanged, is cached as the task's `err` and returned. -/
theorem task_run_short_circuit (n : String) (ty : Ty)
    (f : GoVal → GoVal × Option GoErr) (pre : TaskList) (dbad : Task)
    (post : TaskList) (r0 : GoVal) (v u : GoVal) (e : GoErr)
    (hpre : (runDeps pre v).res = .ok u)
    (hbad : (runTask dbad u).err = some e) :
    (runTask (.mk n ty f (TaskList.append pre (TaskList.cons dbad post))
        r0 none false) v).err = some e ∧
    (runTask (.mk n ty f (TaskList.append pre (TaskList.cons dbad post))
        r0 none false) v).out = r0 ∧
    (runTask (.mk n ty f (TaskList.append pre (TaskList.cons dbad post))
        r0 none false) v).task.err = some e ∧
    (runTask (.mk n ty f (TaskList.append pre (TaskList.cons dbad post))
        r0 none false) v).task.done = true ∧
    (runTask (.mk n ty f (TaskList.append pre (TaskList.cons dbad post))
        r0 none false) v).evs =
      .runCall n v :: ((runDeps pre v).evs ++ (runTask dbad u).evs) ∧
    (runTask (.mk n ty f (TaskList.append pre (TaskList.cons dbad post))
        r0 none false) v).task.depends =
      TaskList.append (runDeps pre v).tasks
        (TaskList.cons (runTask dbad u).task post) := by
  have hsplit := runDeps_append_spec pre (TaskList.cons dbad post) v
  rcases hP : runDeps pre v with ⟨resP, preP, evsP, csP, osP⟩
  rw [hP] at hsplit hpre
  simp only at hpre
  subst hpre
  simp only at hsplit
  rw [runDeps_cons] at hsplit
  rcases hB : runTask dbad u with ⟨outB, errB, dB2, evsB⟩
  rw [hB] at hsplit
  rw [hB] at hbad
  simp only at hbad
  subst hbad
  simp only at hsplit
  rw [runTask_fresh_depErr n ty f
    (TaskList.append pre (TaskList.cons dbad post)) r0 v e
    (TaskList.append preP (TaskList.cons dB2 post)) (evsP ++ evsB)
    (csP ++ [(dbad.name, u)]) (osP ++ []) none hsplit]
  exact ⟨rfl, rfl, rfl, rfl, rfl, rfl⟩

/-- Witness for C3 on `[d1, dbad, dpost]` with input 5: the result is
`dbad`'s error `"boom"` unchanged, and the trace stops after `dbad` — no
event of `dpost` and no `fn` event of the task itself appears. -/
theorem task_run_short_circuit_witness :
    (runDeps (TaskList.cons thrD1 TaskList.nil) (GoVal.vint 5)).res =
      .ok (GoVal.vint 6) ∧
    (runTask badDep (GoVal.vint 6)).err = some (GoErr.userErr "boom") ∧
    (runTask (.mk "t" Ty.tInt thrFn
        (TaskList.append (TaskList.cons thrD1 TaskList.nil)
          (TaskList.cons badDep (TaskList.cons postDep TaskList.nil)))
        (GoVal.vint 0) none false) (GoVal.vint 5)).err =
      some (GoErr.userErr "boom") ∧
    (runTask (.mk "t" Ty.tInt thrFn
        (TaskList.append (TaskList.cons thrD1 TaskList.nil)
          (TaskList.cons badDep (TaskList.cons postDep TaskList.nil)))
        (GoVal.vint 0) none false) (GoVal.vint 5)).evs =
      .runCall "t" (GoVal.vint 5) ::
        ((runDeps (TaskList.cons thrD1 TaskList.nil) (GoVal.vint 5)).evs ++
          (runTask badDep (GoVal.vint 6)).evs) := by
  have h := task_run_short_circuit "t" Ty.tInt thrFn
    (TaskList.cons thrD1 TaskList.nil) badDep
    (TaskList.cons postDep TaskList.nil) (GoVal.vint 0) (GoVal.vint 5)
    (GoVal.vint 6) (GoErr.userErr "boom") rfl rfl
  exact ⟨rfl, rfl, h.1, h.2.2.2.2.1⟩

/-- C4: when the value flowing into `fn` (the last dependency's output, or
the caller input with no dependencies) is non-nil and does not satisfy
`fn`'s declared input type, `Run` fails with a `TypeMismatch` error carrying
the expected (declared) and actual types, `fn` is not invoked (the trace has
no `fn` event of the task), and the error is cached as the task's `err`. -/
theorem task_run_type_mismatch (n : String) (ty : Ty)
    (f : GoVal → GoVal × Option GoErr) (ds : TaskList) (r0 : GoVal)
    (v u : GoVal)
    (hok : (runDeps ds v).res = .ok u)
    (hnil : u ≠ GoVal.vnil) (hty : ¬ typeOf u = some ty) :
    (runTask (.mk n ty f ds r0 none false) v).err =
      some (GoErr.typeMismatch ty (typeOf u)) ∧
    (runTask (.mk n ty f ds r0 none false) v).out = r0 ∧
    (runTask (.mk n ty f ds r0 none false) v).task.err =
      some (GoErr.typeMismatch ty (typeOf u)) ∧
    (runTask (.mk n ty f ds r0 none false) v).task.done = true ∧
    (runTask (.mk n ty f ds r0 none false) v).evs =
      .runCall n v :: (runDeps ds v).evs := by
  rcases hD : runDeps ds v with ⟨res, d2, evs, cs, os⟩
  rw [hD] at hok
  simp only at hok ⊢
  subst hok
  rw [runTask_fresh_mismatch n ty f ds r0 v u d2 evs cs os none hD hnil hty]
  exact ⟨rfl, rfl, rfl, rfl, rfl⟩

/-- Witness for C4: an int-typed task after a dependency that outputs the
string `"s"` fails with `TypeMismatch (expected int, actual string)` and
produces no `fn` event. -/
theorem task_run_type_mismatch_witness :
    (runDeps (TaskList.cons (newTask "ds" Ty.tInt (GoVal.vint 0)
        (fun _ => (GoVal.vstr "s", none))) TaskList.nil)
      (GoVal.vint 1)).res = .ok (GoVal.vstr "s") ∧
    (runTask (.mk "t" Ty.tInt thrFn
        (TaskList.cons (newTask "ds" Ty.tInt (GoVal.vint 0)
          (fun _ => (GoVal.vstr "s", none))) TaskList.nil)
        (GoVal.vint 0) none false) (GoVal.vint 1)).err =
      some (GoErr.typeMismatch Ty.tInt (some Ty.tStr)) := by
  have h := task_run_type_mismatch "t" Ty.tInt thrFn
    (TaskList.cons (newTask "ds" Ty.tInt (GoVal.vint 0)
      (fun _ => (GoVal.vstr "s", none))) TaskList.nil)
    (GoVal.vint 0) (GoVal.vint 1) (GoVal.vstr "s") rfl (by decide) (by decide)
  exact ⟨rfl, h.1⟩

/-- C10: when the value that would flow into `fn` is `nil` (the caller
passed nil with no dependencies, or the last dependency returned nil),
`Run` raises no `TypeMismatch`: it substitutes the zero value of the
declared input type, invokes `fn` with that zero value, and returns and
caches `fn`'s own pair. -/
theorem task_run_nil_zero (n : String) (ty : Ty)
    (f : GoVal → GoVal × Option GoErr) (ds : TaskList) (r0 : GoVal)
    (v : GoVal)
    (hok : (runDeps ds v).res = .ok GoVal.vnil) :
    (runTask (.mk n ty f ds r0 none false) v).out = (f (zeroOf ty)).1 ∧
    (runTask (.mk n ty f ds r0 none false) v).err = (f (zeroOf ty)).2 ∧
    (runTask (.mk n ty f ds r0 none false) v).evs =
      .runCall n v :: ((runDeps ds v).evs ++ [.fnCall n (zeroOf ty)]) := by
  rcases hD : runDeps ds v with ⟨res, d2, evs, cs, os⟩
  rw [hD] at hok
  simp only at hok ⊢
  subst hok
  rw [runTask_fresh_nil n ty f ds r0 v d2 evs cs os none hD]
  exact ⟨rfl, rfl, rfl⟩

/-- Witness for C10: a task of every declared input type, run with `nil`
and no dependencies, invokes `fn` on the type's zero value and raises no
error. -/
theorem task_run_nil_zero_witness :
    (runDeps TaskList.nil GoVal.vnil).res = .ok GoVal.vnil ∧
    (runTask (.mk "t" Ty.tInt thrFn TaskList.nil (GoVal.vint 0) none false)
      GoVal.vnil).out = GoVal.vint 100 ∧
    (runTask (.mk "t" Ty.tInt thrFn TaskList.nil (GoVal.vint 0) none false)
      GoVal.vnil).err = none ∧
    (runTask (.mk "t" Ty.tInt thrFn TaskList.nil (GoVal.vint 0) none false)
      GoVal.vnil).evs =
      [.runCall "t" GoVal.vnil, .fnCall "t" (GoVal.vint 0)] := by
  have h := task_run_nil_zero "t" Ty.tInt thrFn TaskList.nil (GoVal.vint 0)
    GoVal.vnil rfl
  refine ⟨rfl, ?_, ?_, ?_⟩
  · rw [h.1]; decide
  · rw [h.2.1]; decide
  · rw [h.2.2]; decide

/-! ## Retry -/

/-- When the next `k + 1` attempts all fail and the context never resolves,
the loop performs exactly those `k + 1` calls, waits out the doubling
backoffs after every failure (the last one included), and returns the last
attempt's error. -/
theorem retryAux_all_fail (fn : Nat → Option GoErr) (ctxDone : Nat → Bool) :
    ∀ (k i backoff : Nat) (eLast : GoErr),
    (∀ j, j < k → fn (i + j) ≠ none) →
    fn (i + k) = some eLast →
    (∀ j, j ≤ k → ctxDone (i + j) = false) →
    retryAux fn ctxDone i backoff (k + 1) =
      ⟨.opError eLast, k + 1,
        (List.range (k + 1)).map (fun j => 2 ^ j * backoff)⟩
  | 0, i, backoff, eLast => by
    intro hfail hlast hctx
    rw [Nat.add_zero] at hlast
    have hc := hctx 0 (Nat.le_refl 0)
    rw [Nat.add_zero] at hc
    simp [retryAux, hlast, hc, List.range_succ]
  | k + 1, i, backoff, eLast => by
    intro hfail hlast hctx
    have h0 : fn i ≠ none := by
      have := hfail 0 (Nat.succ_pos k)
      rwa [Nat.add_zero] at this
    rcases he0 : fn i with _ | e0
    · exact absurd he0 h0
    have hc0 : ctxDone i = false := by
      have := hctx 0 (Nat.zero_le _)
      rwa [Nat.add_zero] at this
    have ih := retryAux_all_fail fn ctxDone k (i + 1) (2 * backoff) eLast
      (fun j hj => by
        have h2 : i + 1 + j = i + (j + 1) := by omega
        rw [h2]
        exact hfail (j + 1) (Nat.succ_lt_succ hj))
      (by
        have h2 : i + 1 + k = i + (k + 1) := by omega
        rw [h2]
        exact hlast)
      (fun j hj => by
        have h2 : i + 1 + j = i + (j + 1) := by omega
        rw [h2]
        exact hctx (j + 1) (Nat.succ_le_succ hj))
    simp only [retryAux, he0, hc0, if_neg Bool.false_ne_true, ih]
    refine congrArg _ ?_
    conv_rhs => rw [List.range_succ_eq_map, List.map_cons, List.map_map]
    congr 1
    · simp
    · refine List.map_congr_left ?_
      intro a _
      simp only [Function.comp_apply, Nat.pow_succ]
      ring

/-- When the next `k` attempts fail with the context quiet, and the context
resolves during the wait after failing attempt `k`, the loop returns the
context's error after exactly `k + 1` calls, having waited only the `k`
earlier backoffs. -/
theorem retryAux_ctx (fn : Nat → Option GoErr) (ctxDone : Nat → Bool) :
    ∀ (k i backoff rem : Nat),
    k < rem →
    (∀ j, j ≤ k → fn (i + j) ≠ none) →
    (∀ j, j < k → ctxDone (i + j) = false) →
    ctxDone (i + k) = true →
    retryAux fn ctxDone i backoff rem =
      ⟨.ctxError, k + 1, (List.range k).map (fun j => 2 ^ j * backoff)⟩
  | 0, i, backoff, rem => by
    intro hrem hfail hprev hk
    rcases rem with _ | rem2
    · exact absurd hrem (Nat.lt_irrefl 0)
    have h0 : fn i ≠ none := by
      have := hfail 0 (Nat.le_refl 0)
      rwa [Nat.add_zero] at this
    rcases he0 : fn i with _ | e0
    · exact absurd he0 h0
    rw [Nat.add_zero] at hk
    simp [retryAux, he0, hk]
  | k + 1, i, backoff, rem => by
    intro hrem hfail hprev hk
    rcases rem with _ | rem2
    · exact absurd hrem (Nat.not_lt_zero _)
    have h0 : fn i ≠ none := by
      have := hfail 0 (Nat.zero_le _)
      rwa [Nat.add_zero] at this
    rcases he0 : fn i with _ | e0
    · exact absurd he0 h0
    have hc0 : ctxDone i = false := by
      have := hprev 0 (Nat.succ_pos k)
      rwa [Nat.add_zero] at this
    rcases rem2 with _ | rem3
    · exact absurd hrem (by omega)
    have ih := retryAux_ctx fn ctxDone k (i + 1) (2 * backoff) (rem3 + 1)
      (by omega)
      (fun j hj => by
        have h2 : i + 1 + j = i + (j + 1) := by omega
        rw [h2]
        exact hfail (j + 1) (Nat.succ_le_succ hj))
      (fun j hj => by
        have h2 : i + 1 + j = i + (j + 1) := by omega
        rw [h2]
        exact hprev (j + 1) (Nat.succ_lt_succ hj))
      (by
        have h2 : i + 1 + k = i + (k + 1) := by omega
        rw [h2]
        exact hk)
    simp only [retryAux, he0, hc0, if_neg Bool.false_ne_true, ih]
    refine congrArg _ ?_
    conv_rhs => rw [List.range_succ_eq_map, List.map_cons, List.map_map]
    congr 1
    · simp
    · refine List.map_congr_left ?_
      intro a _
      simp only [Function.comp_apply, Nat.pow_succ]
      ring

/-- When the next `k` attempts fail with a quiet context and attempt `k`
succeeds, the loop performs `k + 1` calls, waits out exactly the `k`
doubling backoffs that follow the failures, and reports success. -/
theorem retryAux_succeeds (fn : Nat → Option GoErr) (ctxDone : Nat → Bool) :
    ∀ (k i backoff rem : Nat),
    k < rem →
    (∀ j, j < k → fn (i + j) ≠ none) →
    fn (i + k) = none →
    (∀ j, j < k → ctxDone (i + j) = false) →
    retryAux fn ctxDone i backoff rem =
      ⟨.success, k + 1, (List.range k).map (fun j => 2 ^ j * backoff)⟩
  | 0, i, backoff, rem => by
    intro hrem hfail hsucc hprev
    rcases rem with _ | rem2
    · exact absurd hrem (Nat.lt_irrefl 0)
    rw [Nat.add_zero] at hsucc
    simp [retryAux, hsucc]
  | k + 1, i, backoff, rem => by
    intro hrem hfail hsucc hprev
    rcases rem with _ | rem2
    · exact absurd hrem (Nat.not_lt_zero _)
    have h0 : fn i ≠ none := by
      have := hfail 0 (Nat.succ_pos k)
      rwa [Nat.add_zero] at this
    rcases he0 : fn i with _ | e0
    · exact absurd he0 h0
    have hc0 : ctxDone i = false := by
      have := hprev 0 (Nat.succ_pos k)
      rwa [Nat.add_zero] at this
    rcases rem2 with _ | rem3
    · exact absurd hrem (by omega)
    have ih := retryAux_succeeds fn ctxDone k (i + 1) (2 * backoff) (rem3 + 1)
      (by omega)
      (fun j hj => by
        have h2 : i + 1 + j = i + (j + 1) := by omega
        rw [h2]
        exact hfail (j + 1) (Nat.succ_lt_succ hj))
      (by
        have h2 : i + 1 + k = i + (k + 1) := by omega
        rw [h2]
        exact hsucc)
      (fun j hj => by
        have h2 : i + 1 + j = i + (j + 1) := by omega
        rw [h2]
        exact hprev (j + 1) (Nat.succ_lt_succ hj))
    simp only [retryAux, he0, hc0, if_neg Bool.false_ne_true, ih]
    refine congrArg _ ?_
    conv_rhs => rw [List.range_succ_eq_map, List.map_cons, List.map_map]
    congr 1
    · simp
    · refine List.map_congr_left ?_
      intro a _
      simp only [Function.comp_apply, Nat.pow_succ]
      ring

/-- C7: an operation that fails on every attempt, run with an uncancelled
context and `maxRetries = n`, is called exactly `n + 1` times, and `Retry`
returns the last observed operation error — not a context error. -/
theorem retry_exhaustion (fn : Nat → Option GoErr) (ctxDone : Nat → Bool)
    (retries backoff : Nat) (eLast : GoErr)
    (hfail : ∀ i, i < retries → fn i ≠ none)
    (hlast : fn retries = some eLast)
    (hctx : ∀ i, i ≤ retries → ctxDone i = false) :
    Retry fn ctxDone retries backoff =
      ⟨.opError eLast, retries + 1,
        (List.range (retries + 1)).map (fun j => 2 ^ j * backoff)⟩ := by
  unfold Retry
  exact retryAux_all_fail fn ctxDone retries 0 backoff eLast
    (fun j hj => by simpa using hfail j hj)
    (by simpa using hlast)
    (fun j hj => by simpa using hctx j hj)

/-- Witness for C7: an always-failing operation with `maxRetries = 2` is
invoked exactly 3 times and the result is its own error. -/
theorem retry_exhaustion_witness :
    Retry (fun _ => some (GoErr.userErr "fail")) (fun _ => false) 2 10 =
      ⟨.opError (GoErr.userErr "fail"), 3, [10, 20, 40]⟩ := by
  have h := retry_exhaustion (fun _ => some (GoErr.userErr "fail"))
    (fun _ => false) 2 10 (GoErr.userErr "fail")
    (fun i _ => by simp) rfl (fun i _ => rfl)
  rw [h]
  decide

/-- C8 counterexample: with `maxRetries = 0` and a failing operation there
IS waiting — the loop waits out the initial backoff after the single failed
attempt before returning the error (the select follows every failure, the
last one included).  At backoff 7 the recorded waits are `[7]`, not `[]`. -/
theorem retry_zero_retries_cex :
    (Retry (fun _ => some (GoErr.userErr "boom")) (fun _ => false) 0 7).calls
      = 1 ∧
    (Retry (fun _ => some (GoErr.userErr "boom")) (fun _ => false) 0 7).waits
      = [7] ∧
    ¬ (Retry (fun _ => some (GoErr.userErr "boom")) (fun _ => false) 0 7).waits
      = [] := by
  decide

/-- C8 (amended): `Retry` waits only after a failed attempt, and after every
failed attempt it waits out the current backoff (context permitting), the
backoff doubling each time so the waits are exactly
`2^attempt × initialBackoff` with no jitter.  With `maxRetries = 0` there is
exactly one attempt — and, when it fails, one wait of `initialBackoff`
before the error is returned (success means no wait at all). -/
theorem retry_backoff_schedule (fn : Nat → Option GoErr)
    (ctxDone : Nat → Bool) (retries backoff : Nat) :
    (∀ k, k ≤ retries → (∀ j, j < k → fn j ≠ none) → fn k = none →
      (∀ j, j < k → ctxDone j = false) →
      Retry fn ctxDone retries backoff =
        ⟨.success, k + 1, (List.range k).map (fun j => 2 ^ j * backoff)⟩) ∧
    ((∀ i, i ≤ retries → fn i ≠ none) → (∀ i, i ≤ retries → ctxDone i = false) →
      (Retry fn ctxDone retries backoff).waits =
        (List.range (retries + 1)).map (fun j => 2 ^ j * backoff)) ∧
    (∀ e, fn 0 = some e → ctxDone 0 = false →
      Retry fn ctxDone 0 backoff = ⟨.opError e, 1, [backoff]⟩) := by
  refine ⟨?_, ?_, ?_⟩
  · intro k hk hfail hsucc hprev
    unfold Retry
    exact retryAux_succeeds fn ctxDone k 0 backoff (retries + 1) (by omega)
      (fun j hj => by simpa using hfail j hj)
      (by simpa using hsucc)
      (fun j hj => by simpa using hprev j hj)
  · intro hfail hctx
    obtain ⟨e, he⟩ : ∃ e, fn retries = some e := by
      rcases h : fn retries with _ | e
      · exact absurd h (hfail retries (Nat.le_refl _))
      · exact ⟨e, rfl⟩
    have h := retryAux_all_fail fn ctxDone retries 0 backoff e
      (fun j hj => by simpa using hfail j (Nat.le_of_lt hj))
      (by simpa using he)
      (fun j hj => by simpa using hctx j hj)
    unfold Retry
    rw [h]
  · intro e he hc
    unfold Retry
    simp [retryAux, he, hc]

/-- Witness for the amended C8: an operation failing twice then succeeding,
with `maxRetries = 5`, backoff 4: three calls, waits `[4, 8]` — one doubling
wait after each of the two failures and none after the success. -/
theorem retry_backoff_schedule_witness :
    Retry (fun i => if i < 2 then some (GoErr.userErr "e") else none)
      (fun _ => false) 5 4 = ⟨.success, 3, [4, 8]⟩ := by
  have h := (retry_backoff_schedule
    (fun i => if i < 2 then some (GoErr.userErr "e") else none)
    (fun _ => false) 5 4).1 2 (by omega)
    (fun j hj => by simp [hj])
    (by simp)
    (fun j _ => rfl)
  rw [h]
  decide

/-- C9: if the context resolves while `Retry` is waiting out the backoff
after failed attempt `k` (with the earlier waits undisturbed), `Retry`
returns the context's own error immediately — after `k + 1` calls and only
the `k` earlier waits — even though retry attempts remain. -/
theorem retry_ctx_cancellation (fn : Nat → Option GoErr)
    (ctxDone : Nat → Bool) (retries backoff k : Nat)
    (hk : k ≤ retries)
    (hfail : ∀ j, j ≤ k → fn j ≠ none)
    (hprev : ∀ j, j < k → ctxDone j = false)
    (hcancel : ctxDone k = true) :
    Retry fn ctxDone retries backoff =
      ⟨.ctxError, k + 1, (List.range k).map (fun j => 2 ^ j * backoff)⟩ := by
  unfold Retry
  exact retryAux_ctx fn ctxDone k 0 backoff (retries + 1) (by omega)
    (fun j hj => by simpa using hfail j hj)
    (fun j hj => by simpa using hprev j hj)
    (by simpa using hcancel)

/-- Witness for C9: an always-failing operation, `maxRetries = 5`, context
resolving during the wait after the second attempt: two calls, one wait,
and the context's error is returned though four retries remained. -/
theorem retry_ctx_cancellation_witness :
    Retry (fun _ => some (GoErr.userErr "flaky")) (fun i => i == 1) 5 3 =
      ⟨.ctxError, 2, [3]⟩ := by
  have h := retry_ctx_cancellation (fun _ => some (GoErr.userErr "flaky"))
    (fun i => i == 1) 5 3 1 (by omega)
    (fun j _ => by simp)
    (fun j hj => by
      have h2 : j = 0 := by omega
      subst h2
      rfl)
    rfl
  rw [h]
  decide

/-! ## FanOutTask and Runner -/

/-- Indexing a list over its whole index range and filtering is filtering
the list itself. -/
theorem filterMap_range_get {α β : Type} :
    ∀ (l : List α) (g : α → Option β),
    (List.range l.length).filterMap (fun i => (l[i]?).bind g) = l.filterMap g
  | [], g => rfl
  | a :: l, g => by
    rw [List.length_cons, List.range_succ_eq_map, List.filterMap_cons,
      List.filterMap_map]
    have h2 : (fun i => ((a :: l)[i]?).bind g) ∘ Nat.succ =
        fun i => (l[i]?).bind g := by
      funext i
      simp
    rw [h2, filterMap_range_get l g]
    rcases g a with _ | b <;> simp [List.filterMap_cons]

/-- A permuted index schedule yields a permutation of the fully filtered
list. -/
theorem filterMap_sched_perm {α β : Type} (l : List α) (g : α → Option β)
    (sched : List Nat) (hperm : sched.Perm (List.range l.length)) :
    (sched.filterMap (fun i => (l[i]?).bind g)).Perm (l.filterMap g) := by
  have h := hperm.filterMap (fun i => (l[i]?).bind g)
  rwa [filterMap_range_get l g] at h

/-- C5: behaviour of the Task produced by `ToTask`, for every completion
schedule: a `generate` failure aborts with that error before any
sub-operation runs (whatever `fanIn` is); otherwise every generated
sub-operation is invoked exactly once with the zero-valued input, and
(a) if all succeed, `fanIn` receives the results in `generate`'s output
order — independent of the schedule — and its pair is the outcome (an empty
generated list gives `fanIn []`); (b) if any fails, the first error in
completion order is the outcome, it is one of the sub-operation errors, and
the outcome is the same whatever `fanIn` is (it is not invoked). -/
theorem fanout_to_task_spec {In Out : Type} (f : FanOutTask In Out)
    (zeroIn : In) (zeroOut : Out) (input : List In) (sched : List Nat) :
    (∀ e, f.Generate input = .error e →
      f.toTaskFn zeroIn zeroOut sched input = ((zeroOut, some e), []) ∧
      ∀ g, (FanOutTask.mk f.Generate g f.Name).toTaskFn zeroIn zeroOut
        sched input = ((zeroOut, some e), [])) ∧
    (∀ fns, f.Generate input = .ok fns →
      (f.toTaskFn zeroIn zeroOut sched input).2 =
        (List.range fns.length).map (fun i => (i, zeroIn)) ∧
      ((∀ p ∈ fanResults fns zeroIn, p.2 = none) →
        (f.toTaskFn zeroIn zeroOut sched input).1 =
          f.FanIn ((fanResults fns zeroIn).map Prod.fst)) ∧
      (fns = [] → (f.toTaskFn zeroIn zeroOut sched input).1 = f.FanIn []) ∧
      (sched.Perm (List.range fns.length) →
        (∃ p ∈ fanResults fns zeroIn, ¬ p.2 = none) →
        ∃ e, fanFirstErr (fanResults fns zeroIn) sched = some e ∧
          (f.toTaskFn zeroIn zeroOut sched input).1 = (zeroOut, some e) ∧
          e ∈ (fanResults fns zeroIn).filterMap Prod.snd ∧
          ∀ g, ((FanOutTask.mk f.Generate g f.Name).toTaskFn zeroIn zeroOut
            sched input).1 = (zeroOut, some e))) := by
  constructor
  · intro e hgen
    constructor
    · simp [FanOutTask.toTaskFn, hgen]
    · intro g
      simp [FanOutTask.toTaskFn, hgen]
  · intro fns hgen
    refine ⟨?_, ?_, ?_, ?_⟩
    · simp only [FanOutTask.toTaskFn, hgen]
      rcases fanFirstErr (fanResults fns zeroIn) sched with _ | e <;>
        simp [fanCalls]
    · intro hall
      have hfe : fanFirstErr (fanResults fns zeroIn) sched = none := by
        unfold fanFirstErr
        rw [List.head?_eq_none_iff, List.filterMap_eq_nil_iff]
        intro i _
        rcases hi : (fanResults fns zeroIn)[i]? with _ | p
        · rfl
        · have hp : p ∈ fanResults fns zeroIn := List.getElem?_mem hi
          simp [hall p hp]
      simp [FanOutTask.toTaskFn, hgen, hfe]
    · intro hempty
      subst hempty
      have hfe : fanFirstErr ([] : List (Out × Option GoErr)) sched =
          none := by
        unfold fanFirstErr
        rw [List.head?_eq_none_iff, List.filterMap_eq_nil_iff]
        intro i _
        simp
      simp [FanOutTask.toTaskFn, hgen, fanResults, hfe]
    · intro hperm hbad
      obtain ⟨p, hp, hpe⟩ := hbad
      have hlen : fns.length = (fanResults fns zeroIn).length := by
        simp [fanResults]
      rw [hlen] at hperm
      have hqperm := filterMap_sched_perm (fanResults fns zeroIn) Prod.snd
        sched hperm
      have hne : (fanResults fns zeroIn).filterMap Prod.snd ≠ [] := by
        intro hnil
        rw [List.filterMap_eq_nil_iff] at hnil
        exact hpe (hnil p hp)
      have hqne : sched.filterMap
          (fun i => ((fanResults fns zeroIn)[i]?).bind Prod.snd) ≠ [] := by
        intro hnil
        apply hne
        have hlen0 := hqperm.length_eq
        rw [hnil] at hlen0
        exact List.eq_nil_of_length_eq_zero hlen0.symm
      obtain ⟨e, he⟩ : ∃ e, fanFirstErr (fanResults fns zeroIn) sched =
          some e := by
        unfold fanFirstErr
        rcases hh : (sched.filterMap
            (fun i => ((fanResults fns zeroIn)[i]?).bind Prod.snd)).head?
          with _ | e
        · rw [List.head?_eq_none_iff] at hh
          exact absurd hh hqne
        · exact ⟨e, rfl⟩
      refine ⟨e, he, ?_, ?_, ?_⟩
      · simp [FanOutTask.toTaskFn, hgen, he]
      · have hmem : e ∈ sched.filterMap
            (fun i => ((fanResults fns zeroIn)[i]?).bind Prod.snd) := by
          unfold fanFirstErr at he
          exact List.mem_of_mem_head? (by rw [he]; exact rfl)
        exact hqperm.mem_iff.mp hmem
      · intro g
        simp [FanOutTask.toTaskFn, hgen, he]

/-- Witness for C5: the demo fan-out under the completion order `[2, 0, 1]`
still hands `fanIn` the results in generation order `1, 2, 3` (folded to
123), and every worker was called once with the zero input. -/
theorem fanout_to_task_spec_witness :
    fanDemo.Generate [] =
      .ok [fun _ => (1, none), fun _ => (2, none), fun _ => (3, none)] ∧
    (fanDemo.toTaskFn 0 0 [2, 0, 1] []).1 = (123, none) ∧
    (fanDemo.toTaskFn 0 0 [2, 0, 1] []).2 = [(0, 0), (1, 0), (2, 0)] := by
  have h := (fanout_to_task_spec fanDemo 0 0 [] [2, 0, 1]).2
    [fun _ => (1, none), fun _ => (2, none), fun _ => (3, none)] rfl
  refine ⟨rfl, ?_, ?_⟩
  · have h2 := h.2.1 (by
      intro p hp
      have hres : fanResults
          [fun _ => ((1 : Int), (none : Option GoErr)),
            fun _ => (2, none), fun _ => (3, none)] (0 : Int) =
          [(1, none), (2, none), (3, none)] := rfl
      rw [hres] at hp
      simp only [List.mem_cons, List.not_mem_nil, or_false] at hp
      rcases hp with hp | hp | hp <;> subst hp <;> rfl)
    rw [h2]
    rfl
  · rw [h.1]
    rfl

/-- C6: `Runner.Run` over the added tasks, for every completion order: an
empty collection returns no error; otherwise every added task's `Run` is
invoked exactly once with the nil input (each run's trace opens with that
call), the error queue collects exactly the errors of the failing runs (the
buffer of size `len(tasks)` never drops one), `Run` returns nil exactly when
every task succeeded, and otherwise returns the single first error in drain
order, which is one of the failing runs' errors. -/
theorem runner_run_spec (ts : List Task) (sched : List Nat)
    (hperm : sched.Perm (List.range ts.length)) :
    (ts = [] → runnerRun ts sched = none) ∧
    (∀ t ∈ ts, (runTask t GoVal.vnil).evs.head? =
      some (.runCall t.name GoVal.vnil)) ∧
    (runnerQueue ts sched).Perm ((runnerRuns ts).filterMap RunRes.err) ∧
    (runnerQueue ts sched).length ≤ ts.length ∧
    (runnerRun ts sched = none ↔ ∀ R ∈ runnerRuns ts, R.err = none) ∧
    (∀ e, runnerRun ts sched = some e →
      e ∈ (runnerRuns ts).filterMap RunRes.err) := by
  have hlen : ts.length = (runnerRuns ts).length := by simp [runnerRuns]
  rw [hlen] at hperm
  have hqperm : (runnerQueue ts sched).Perm
      ((runnerRuns ts).filterMap RunRes.err) :=
    filterMap_sched_perm (runnerRuns ts) RunRes.err sched hperm
  refine ⟨?_, ?_, hqperm, ?_, ?_, ?_⟩
  · intro hempty
    subst hempty
    have : runnerQueue [] sched = [] := by
      unfold runnerQueue
      rw [List.filterMap_eq_nil_iff]
      intro i _
      simp [runnerRuns]
    simp [runnerRun, this]
  · intro t _
    exact runTask_evs_head t GoVal.vnil
  · have h1 := hqperm.length_eq
    have h2 := List.length_filterMap_le RunRes.err (runnerRuns ts)
    rw [hlen]
    unfold runnerQueue at h1 ⊢
    omega
  · unfold runnerRun
    rw [List.head?_eq_none_iff]
    constructor
    · intro hq
      have : (runnerRuns ts).filterMap RunRes.err = [] := by
        have hlen0 := hqperm.length_eq
        rw [hq] at hlen0
        exact List.eq_nil_of_length_eq_zero hlen0.symm
      rw [List.filterMap_eq_nil_iff] at this
      exact this
    · intro hall
      have : (runnerRuns ts).filterMap RunRes.err = [] := by
        rw [List.filterMap_eq_nil_iff]
        exact hall
      have hlen0 := hqperm.length_eq
      rw [this] at hlen0
      exact List.eq_nil_of_length_eq_zero hlen0
  · intro e he
    have hmem : e ∈ runnerQueue ts sched :=
      List.mem_of_mem_head? (by rw [runnerRun] at he; rw [he]; exact rfl)
    exact hqperm.mem_iff.mp hmem

/-- Witness for C6: a runner holding a succeeding task and a failing one,
drained in completion order `[1, 0]`, returns the failing task's error,
which is among the collected errors. -/
theorem runner_run_spec_witness :
    ([1, 0] : List Nat).Perm
      (List.range ([memoDep, badDep] : List Task).length) ∧
    runnerRun [memoDep, badDep] [1, 0] = some (GoErr.userErr "boom") ∧
    (GoErr.userErr "boom") ∈
      (runnerRuns [memoDep, badDep]).filterMap RunRes.err := by
  refine ⟨by decide, by decide, ?_⟩
  exact (runner_run_spec [memoDep, badDep] [1, 0] (by decide)).2.2.2.2.2
    (GoErr.userErr "boom") (by decide)

end Taskflow
